import Mathlib

/-!
Shallow embedding of the youtube-dl CLI (`src/index.ts`) for verification.

JavaScript strings are modelled as `List Char` (JS string comparison with
`<` / `>` is code-unit lexicographic, which coincides with the
lexicographic order on `List Char` for the ASCII data handled here).
JavaScript numbers that the program uses (byte counts, bitrates,
percentages) are modelled as `Nat`; `Math.floor((downloaded / total) * 100)`
is modelled as the integer division `downloaded * 100 / total`, which is
exact for realistic byte counts. Fallible code returns `Except`.
-/

/-- Errors that format selection can produce.  `reduceOfEmptyArray` models the
JavaScript `TypeError` thrown by `Array.prototype.reduce` when it is called
without an initial value on an empty array; `noSuitableFormat` models the
`new Error(...)` thrown by the explicit `if (!format)` checks (lines 64-66 and
211-213 of `src/index.ts`). -/
inductive SelectionError where
  | reduceOfEmptyArray
  | noSuitableFormat (message : String)
deriving DecidableEq

/-- Embedding of JavaScript `Array.prototype.reduce(f)` called without an
initial value: on an empty array it throws a `TypeError`; otherwise the
accumulator starts at the first element and `f` is folded over the rest. -/
def jsReduce {α : Type} (f : α → α → α) : List α → Except SelectionError α
  | [] => .error .reduceOfEmptyArray
  | h :: t => .ok (t.foldl f h)

/-- JavaScript truthiness of an object value: an object is never falsy, so the
`!format` test on a value produced by `reduce` (which always returns one of the
array's elements, here an object) is always `false`. -/
def jsFalsy {α : Type} (_a : α) : Bool := false

/-- A candidate video format as consumed by `downloadVideo` (line 60-62 of
`src/index.ts`): only the `qualityLabel` field is read.  The list handed to
the selector is the output of `ytdl.filterFormats(info.formats,
'videoandaudio')`, i.e. the already-filtered video+audio candidates; the
filter itself lives in the external `ytdl` library. -/
structure Format where
  qualityLabel : List Char
deriving DecidableEq

/-- A candidate audio format as consumed by `downloadAudioWithYtdlCore`
(line 209 of `src/index.ts`): only the possibly-absent `bitrate` field is
read.  The list handed to the selector is the output of
`ytdl.filterFormats(info.formats, 'audioonly')`. -/
structure AudioFormat where
  bitrate : Option Nat
deriving DecidableEq

/-- Embedding of the video format selection in `downloadVideo`
(lines 59-66 of `src/index.ts`):

    const format = quality === 'highest'
      ? formats.reduce((prev, curr) => (prev.qualityLabel > curr.qualityLabel ? prev : curr))
      : formats.reduce((prev, curr) => (prev.qualityLabel < curr.qualityLabel ? prev : curr));
    if (!format) { throw new Error('No suitable format found'); }
-/
def selectVideoFormat (formats : List Format) (quality : String) :
    Except SelectionError Format :=
  let reduced :=
    if quality == "highest" then
      jsReduce (fun prev curr =>
        if prev.qualityLabel > curr.qualityLabel then prev else curr) formats
    else
      jsReduce (fun prev curr =>
        if prev.qualityLabel < curr.qualityLabel then prev else curr) formats
  match reduced with
  | .error e => .error e
  | .ok format =>
    if jsFalsy format then .error (.noSuitableFormat "No suitable format found")
    else .ok format

/-- Embedding of the audio format selection in `downloadAudioWithYtdlCore`
(lines 208-213 of `src/index.ts`):

    const format = formats.reduce((prev, curr) =>
      ((prev.bitrate ?? 0) > (curr.bitrate ?? 0) ? prev : curr));
    if (!format) { throw new Error('No suitable audio format found'); }

The nullish coalescing `bitrate ?? 0` is `Option.getD · 0`.  Note that the
quality preference is not consulted on the audio path. -/
def selectAudioFormat (formats : List AudioFormat) : Except SelectionError AudioFormat :=
  let reduced :=
    jsReduce (fun prev curr =>
      if prev.bitrate.getD 0 > curr.bitrate.getD 0 then prev else curr) formats
  match reduced with
  | .error e => .error e
  | .ok format =>
    if jsFalsy format then .error (.noSuitableFormat "No suitable audio format found")
    else .ok format

/-- One `progress` event of the download stream: the second and third callback
arguments `(downloaded, total)` of `stream.on('progress', ...)`. -/
structure ProgressEvent where
  downloaded : Nat
  total : Nat
deriving DecidableEq

/-- The integer percentage computed on lines 77 and 224 of `src/index.ts`:
`Math.floor((downloaded / total) * 100)`, as exact integer division. -/
def progressPct (e : ProgressEvent) : Nat :=
  e.downloaded * 100 / e.total

/-- Embedding of the progress handler of the library download path
(lines 75-82 and 222-229 of `src/index.ts`): `lastPercentage` is the mutable
variable, and the returned list collects the percentages for which the spinner
text was updated:

    let lastPercentage = 0;
    stream.on('progress', (_, downloaded, total) => {
      const percentage = Math.floor((downloaded / total) * 100);
      if (percentage > lastPercentage) { <emit>; lastPercentage = percentage; }
    });
-/
def progressEmitsFrom (lastPercentage : Nat) : List ProgressEvent → List Nat
  | [] => []
  | e :: rest =>
    let percentage := progressPct e
    if percentage > lastPercentage then percentage :: progressEmitsFrom percentage rest
    else progressEmitsFrom lastPercentage rest

/-- The emitted percentage updates for a whole stream of progress events,
starting from the initial `lastPercentage = 0`. -/
def progressEmissions (events : List ProgressEvent) : List Nat :=
  progressEmitsFrom 0 events

/-- A monotonic input stream: byte counts never decrease and the reported
total stays fixed between consecutive events. -/
def MonotonicEvents (events : List ProgressEvent) : Prop :=
  List.Chain' (fun a b => a.downloaded ≤ b.downloaded ∧ a.total = b.total) events

/-- Environment facts that determine the control flow of `downloadAudio`:
whether `ytdl.validateURL` accepts the URL, whether the output directory
already exists, and what `checkYtDlpInstalled` resolves to. -/
structure AudioEnv where
  urlValid : Bool
  dirExists : Bool
  hasYtDlp : Bool
deriving DecidableEq

/-- Observable actions of `downloadAudio` (lines 107-140 of `src/index.ts`),
in the order the function performs them. -/
inductive AudioEvent where
  | failInvalidURL
  | mkdir
  | probeYtDlp (result : Bool)
  | warnFallback
  | runYtDlp
  | runYtdlCore
deriving DecidableEq

/-- Embedding of the control flow of `downloadAudio` (lines 107-140 of
`src/index.ts`) as the trace of its observable actions: validate the URL
(exiting on failure), create the output directory if absent, probe for
`yt-dlp` via `checkYtDlpInstalled`, then either delegate to
`downloadAudioWithYtDlp` or warn and fall back to
`downloadAudioWithYtdlCore`. -/
def downloadAudio (env : AudioEnv) : List AudioEvent :=
  if !env.urlValid then [.failInvalidURL]
  else
    (if !env.dirExists then [.mkdir] else []) ++
    [.probeYtDlp env.hasYtDlp] ++
    (if env.hasYtDlp then [.runYtDlp] else [.warnFallback, .runYtdlCore])

/-- Possible outcomes of the `execFile('yt-dlp', ['--version'], cb)`
invocation used by the probe (lines 142-148 of `src/index.ts`): success, or
any of the failure modes, all of which surface only as a non-null `error`
argument to the callback. -/
inductive ExecOutcome where
  | success
  | binaryMissing
  | nonZeroExit (code : Nat)
  | spawnError
deriving DecidableEq

/-- Whether the `execFile` callback receives a non-null `error` argument for a
given outcome. -/
def execFileFailed : ExecOutcome → Bool
  | .success => false
  | .binaryMissing => true
  | .nonZeroExit _ => true
  | .spawnError => true

/-- Embedding of `checkYtDlpInstalled` (lines 142-148 of `src/index.ts`): the
promise executor only ever calls `resolve(!error)`, never `reject`, so the
function totally maps every invocation outcome to a `Bool`. -/
def checkYtDlpInstalled (outcome : ExecOutcome) : Bool :=
  !(execFileFailed outcome)

/-- The install-hint message built on lines 164-167 of `src/index.ts`. -/
def ffmpegInstallHints : String :=
  "ffmpeg is not installed. Please install ffmpeg:\n  macOS: brew install ffmpeg\n  Ubuntu/Debian: sudo apt-get install ffmpeg\n  Windows: choco install ffmpeg"

/-- Whether `pat` occurs at the very start of `l` (character-wise). -/
def startsWithChars : List Char → List Char → Bool
  | [], _ => true
  | _ :: _, [] => false
  | p :: ps, c :: cs => p == c && startsWithChars ps cs

/-- Whether `pat` occurs contiguously anywhere inside the character list:
the semantics of JavaScript `String.prototype.includes`. -/
def containsChars (pat : List Char) : List Char → Bool
  | [] => startsWithChars pat []
  | c :: cs => startsWithChars pat (c :: cs) || containsChars pat cs

/-- JavaScript `s.includes(pat)` on the `List Char` view of the strings. -/
def strIncludes (s pat : String) : Bool :=
  containsChars pat.toList s.toList

/-- The diagnostic text chosen on line 162 of `src/index.ts`:
`stderr?.toString() || error.message` — the callback `stderr`, unless it is
absent or the empty string (falsy), in which case the error message. -/
def ytDlpDiagnostic (stderr : Option String) (errMessage : String) : String :=
  match stderr with
  | none => errMessage
  | some s => if s.isEmpty then errMessage else s

/-- Classification of a failed `yt-dlp` invocation (lines 160-170 of
`src/index.ts`). -/
inductive YtDlpFailure where
  | missingEncoderDependency (message : String)
  | externalToolError (message : String)
deriving DecidableEq

/-- Embedding of the error classification in `downloadAudioWithYtDlp`
(lines 160-170 of `src/index.ts`): when the diagnostic text contains
`'ffmpeg'` the rejection carries the install hints, otherwise it wraps the
raw diagnostic text in `yt-dlp error: ...`. -/
def classifyYtDlpFailure (stderr : Option String) (errMessage : String) : YtDlpFailure :=
  let errorMessage := ytDlpDiagnostic stderr errMessage
  if strIncludes errorMessage "ffmpeg" then
    .missingEncoderDependency ffmpegInstallHints
  else
    .externalToolError ("yt-dlp error: " ++ errorMessage)

/-- Numeric value of an ASCII digit character. -/
def digitVal (c : Char) : Nat := c.toNat - 48

/-- First match of the JavaScript regular expression `/(\d+)%/` on a character
list, returning the numeric value of the captured digit run.  The scan state
records whether the previous character extended a digit run (and the value
accumulated so far): a maximal digit run immediately followed by `%` is a
match, and the earliest such run wins, exactly as for the regex. -/
def findPercentAux : Bool → Nat → List Char → Option Nat
  | _, _, [] => none
  | true, acc, c :: rest =>
    if c.isDigit then findPercentAux true (acc * 10 + digitVal c) rest
    else if c == '%' then some acc
    else findPercentAux false 0 rest
  | false, _, c :: rest =>
    if c.isDigit then findPercentAux true (digitVal c) rest
    else findPercentAux false 0 rest

/-- JavaScript `String.prototype.trim` on a character list (whitespace
stripped from both ends). -/
def jsTrim (l : List Char) : List Char :=
  ((l.dropWhile Char.isWhitespace).reverse.dropWhile Char.isWhitespace).reverse

/-- Embedding of the per-chunk stderr handler of `downloadAudioWithYtDlp`
(lines 177-185 of `src/index.ts`): trim the chunk, require a `%` character,
match `/(\d+)%/`, and on success update the spinner text with the captured
percentage.  Returns the emitted percentage, if any.  Note the handler keeps
no state between chunks. -/
def ytDlpLineUpdate (line : List Char) : Option Nat :=
  let message := jsTrim line
  if message.contains '%' then findPercentAux false 0 message else none

/-- The sequence of percentage updates emitted by the `yt-dlp` stderr handler
over a whole stream of chunks: every chunk is processed independently. -/
def ytDlpEmissions (lines : List (List Char)) : List Nat :=
  lines.filterMap ytDlpLineUpdate

/-! ## Helper lemmas about the JavaScript reduce steps -/

lemma jsMaxFold_le {α β : Type} [LinearOrder β] (key : α → β) (t : List α) (h : α) :
    ∀ g ∈ h :: t,
      key g ≤ key (t.foldl (fun prev curr => if key prev > key curr then prev else curr) h) := by
  induction t generalizing h with
  | nil =>
    intro g hg
    rw [List.mem_singleton] at hg
    subst hg
    exact le_refl _
  | cons c t ih =>
    intro g hg
    have hstep : ∀ x, x = h ∨ x = c → key x ≤ key (if key h > key c then h else c) := by
      intro x hx
      by_cases hc : key h > key c
      · rw [if_pos hc]
        rcases hx with rfl | rfl
        · exact le_refl _
        · exact le_of_lt hc
      · rw [if_neg hc]
        rcases hx with rfl | rfl
        · exact le_of_not_lt hc
        · exact le_refl _
    rw [List.foldl_cons]
    rcases List.mem_cons.mp hg with rfl | hg'
    · exact le_trans (hstep g (Or.inl rfl)) (ih _ _ (List.mem_cons_self _ _))
    rcases List.mem_cons.mp hg' with rfl | hg''
    · exact le_trans (hstep g (Or.inr rfl)) (ih _ _ (List.mem_cons_self _ _))
    · exact ih _ _ (List.mem_cons_of_mem _ hg'')

lemma jsMinFold_le {α β : Type} [LinearOrder β] (key : α → β) (t : List α) (h : α) :
    ∀ g ∈ h :: t,
      key (t.foldl (fun prev curr => if key prev < key curr then prev else curr) h) ≤ key g := by
  induction t generalizing h with
  | nil =>
    intro g hg
    rw [List.mem_singleton] at hg
    subst hg
    exact le_refl _
  | cons c t ih =>
    intro g hg
    have hstep : ∀ x, x = h ∨ x = c → key (if key h < key c then h else c) ≤ key x := by
      intro x hx
      by_cases hc : key h < key c
      · rw [if_pos hc]
        rcases hx with rfl | rfl
        · exact le_refl _
        · exact le_of_lt hc
      · rw [if_neg hc]
        rcases hx with rfl | rfl
        · exact le_of_not_lt hc
        · exact le_refl _
    rw [List.foldl_cons]
    have hmin :
        key ((t.foldl (fun prev curr => if key prev < key curr then prev else curr)
          (if key h < key c then h else c))) ≤ key (if key h < key c then h else c) :=
      ih _ _ (List.mem_cons_self _ _)
    rcases List.mem_cons.mp hg with rfl | hg'
    · exact le_trans hmin (hstep g (Or.inl rfl))
    rcases List.mem_cons.mp hg' with rfl | hg''
    · exact le_trans hmin (hstep g (Or.inr rfl))
    · exact ih _ _ (List.mem_cons_of_mem _ hg'')

lemma jsMaxFold_lastTied {α β : Type} [LinearOrder β] (key : α → β) (t : List α) (h : α) :
    ∃ l1 l2,
      h :: t =
        l1 ++ (t.foldl (fun prev curr => if key prev > key curr then prev else curr) h) :: l2 ∧
      ∀ g ∈ l2,
        key g < key (t.foldl (fun prev curr => if key prev > key curr then prev else curr) h) := by
  induction t generalizing h with
  | nil => exact ⟨[], [], rfl, by simp⟩
  | cons c t ih =>
    rw [List.foldl_cons]
    by_cases hc : key h > key c
    · rw [if_pos hc]
      obtain ⟨l1, l2, heq, hbound⟩ := ih h
      cases l1 with
      | nil =>
        rw [List.nil_append, List.cons_eq_cons] at heq
        obtain ⟨hf, ht⟩ := heq
        refine ⟨[], c :: t, ?_, ?_⟩
        · rw [List.nil_append, ← hf]
        · intro g hg
          rcases List.mem_cons.mp hg with rfl | hg'
          · rw [← hf]
            exact hc
          · exact hbound g (ht ▸ hg')
      | cons x l1 =>
        rw [List.cons_append, List.cons_eq_cons] at heq
        obtain ⟨hx, ht⟩ := heq
        exact ⟨h :: c :: l1, l2, by rw [List.cons_append, List.cons_append, ← ht], hbound⟩
    · rw [if_neg hc]
      obtain ⟨l1, l2, heq, hbound⟩ := ih c
      exact ⟨h :: l1, l2, by rw [List.cons_append, ← heq], hbound⟩

lemma jsMinFold_lastTied {α β : Type} [LinearOrder β] (key : α → β) (t : List α) (h : α) :
    ∃ l1 l2,
      h :: t =
        l1 ++ (t.foldl (fun prev curr => if key prev < key curr then prev else curr) h) :: l2 ∧
      ∀ g ∈ l2,
        key (t.foldl (fun prev curr => if key prev < key curr then prev else curr) h) < key g := by
  induction t generalizing h with
  | nil => exact ⟨[], [], rfl, by simp⟩
  | cons c t ih =>
    rw [List.foldl_cons]
    by_cases hc : key h < key c
    · rw [if_pos hc]
      obtain ⟨l1, l2, heq, hbound⟩ := ih h
      cases l1 with
      | nil =>
        rw [List.nil_append, List.cons_eq_cons] at heq
        obtain ⟨hf, ht⟩ := heq
        refine ⟨[], c :: t, ?_, ?_⟩
        · rw [List.nil_append, ← hf]
        · intro g hg
          rcases List.mem_cons.mp hg with rfl | hg'
          · rw [← hf]
            exact hc
          · exact hbound g (ht ▸ hg')
      | cons x l1 =>
        rw [List.cons_append, List.cons_eq_cons] at heq
        obtain ⟨hx, ht⟩ := heq
        exact ⟨h :: c :: l1, l2, by rw [List.cons_append, List.cons_append, ← ht], hbound⟩
    · rw [if_neg hc]
      obtain ⟨l1, l2, heq, hbound⟩ := ih c
      exact ⟨h :: l1, l2, by rw [List.cons_append, ← heq], hbound⟩

lemma selectVideoFormat_nil (quality : String) :
    selectVideoFormat [] quality = .error .reduceOfEmptyArray := by
  unfold selectVideoFormat
  split <;> rfl

lemma selectVideoFormat_highest_cons (h : Format) (t : List Format) :
    selectVideoFormat (h :: t) "highest" =
      .ok (t.foldl (fun prev curr =>
        if prev.qualityLabel > curr.qualityLabel then prev else curr) h) := rfl

lemma selectVideoFormat_lowest_cons (h : Format) (t : List Format) :
    selectVideoFormat (h :: t) "lowest" =
      .ok (t.foldl (fun prev curr =>
        if prev.qualityLabel < curr.qualityLabel then prev else curr) h) := rfl

lemma selectVideoFormat_cons (h : Format) (t : List Format) (quality : String) :
    selectVideoFormat (h :: t) quality =
      if quality == "highest" then
        .ok (t.foldl (fun prev curr =>
          if prev.qualityLabel > curr.qualityLabel then prev else curr) h)
      else
        .ok (t.foldl (fun prev curr =>
          if prev.qualityLabel < curr.qualityLabel then prev else curr) h) := by
  by_cases hq : quality == "highest"
  · rw [if_pos hq]
    simp only [selectVideoFormat]
    rw [if_pos hq]
    rfl
  · rw [if_neg hq]
    simp only [selectVideoFormat]
    rw [if_neg hq]
    rfl

lemma selectAudioFormat_nil : selectAudioFormat [] = .error .reduceOfEmptyArray := rfl

lemma selectAudioFormat_cons (h : AudioFormat) (t : List AudioFormat) :
    selectAudioFormat (h :: t) =
      .ok (t.foldl (fun prev curr =>
        if prev.bitrate.getD 0 > curr.bitrate.getD 0 then prev else curr) h) := rfl

/-! ## Claims C1-C4 and C10: format selection -/

/-- C1: for every non-empty (already filtered) list of video+audio formats,
with quality preference `highest` the selector returns a format whose quality
label is lexicographically greater than or equal to the label of every format
in the list, and with preference `lowest` one whose label is lexicographically
less than or equal to every label. -/
theorem C1_selectVideo_extremal_label :
    (∀ l : List Format, l ≠ [] →
      ∃ f, selectVideoFormat l "highest" = .ok f ∧ f ∈ l ∧
        ∀ g ∈ l, g.qualityLabel ≤ f.qualityLabel) ∧
    (∀ l : List Format, l ≠ [] →
      ∃ f, selectVideoFormat l "lowest" = .ok f ∧ f ∈ l ∧
        ∀ g ∈ l, f.qualityLabel ≤ g.qualityLabel) := by
  constructor
  · intro l hl
    cases l with
    | nil => exact absurd rfl hl
    | cons h t =>
      refine ⟨_, selectVideoFormat_highest_cons h t, ?_, jsMaxFold_le Format.qualityLabel t h⟩
      obtain ⟨l1, l2, heq, -⟩ := jsMaxFold_lastTied Format.qualityLabel t h
      rw [heq]
      exact List.mem_append_right _ (List.mem_cons_self _ _)
  · intro l hl
    cases l with
    | nil => exact absurd rfl hl
    | cons h t =>
      refine ⟨_, selectVideoFormat_lowest_cons h t, ?_, jsMinFold_le Format.qualityLabel t h⟩
      obtain ⟨l1, l2, heq, -⟩ := jsMinFold_lastTied Format.qualityLabel t h
      rw [heq]
      exact List.mem_append_right _ (List.mem_cons_self _ _)

/-- C1 witness: both parts of the claim evaluated on the concrete candidate
list `[720p, 1080p]`. -/
theorem C1_selectVideo_extremal_label_witness :
    (∃ f, selectVideoFormat [⟨"720p".toList⟩, ⟨"1080p".toList⟩] "highest" = .ok f ∧
      f ∈ [⟨"720p".toList⟩, ⟨"1080p".toList⟩] ∧
      ∀ g ∈ [(⟨"720p".toList⟩ : Format), ⟨"1080p".toList⟩],
        g.qualityLabel ≤ f.qualityLabel) ∧
    (∃ f, selectVideoFormat [⟨"720p".toList⟩, ⟨"1080p".toList⟩] "lowest" = .ok f ∧
      f ∈ [⟨"720p".toList⟩, ⟨"1080p".toList⟩] ∧
      ∀ g ∈ [(⟨"720p".toList⟩ : Format), ⟨"1080p".toList⟩],
        f.qualityLabel ≤ g.qualityLabel) :=
  ⟨C1_selectVideo_extremal_label.1 _ (by decide),
   C1_selectVideo_extremal_label.2 _ (by decide)⟩

/-- C2 counterexample: on the candidate list `[{label:"720p"}, {label:"1080p"}]`
with quality `highest` the selector returns the format labelled `"720p"`, not
the one labelled `"1080p"` claimed by scenario A, because `"720p"` is the
lexicographically larger label. -/
theorem C2_scenarioA_cex :
    selectVideoFormat [⟨"720p".toList⟩, ⟨"1080p".toList⟩] "highest" =
      .ok ⟨"720p".toList⟩ ∧
    (⟨"720p".toList⟩ : Format) ≠ ⟨"1080p".toList⟩ ∧
    selectVideoFormat [⟨"720p".toList⟩, ⟨"1080p".toList⟩] "highest" ≠
      .ok ⟨"1080p".toList⟩ := by
  refine ⟨rfl, by decide, ?_⟩
  intro h
  have h1 : Except.ok (ε := SelectionError) (⟨"720p".toList⟩ : Format) =
      .ok ⟨"1080p".toList⟩ := by
    rw [← h]
    rfl
  injection h1 with h2
  exact absurd h2 (by decide)

/-- C2 amended: on `[{label:"720p"}, {label:"1080p"}]` with quality `highest`
the selector returns the format labelled `"720p"`, the lexicographic maximum
(the label `"1080p"` compares lexicographically below `"720p"`). -/
theorem C2_scenarioA_amended :
    selectVideoFormat [⟨"720p".toList⟩, ⟨"1080p".toList⟩] "highest" =
      .ok ⟨"720p".toList⟩ ∧
    "1080p".toList < "720p".toList :=
  ⟨rfl, by decide⟩

/-- C3: for every non-empty list of audio-only formats the audio selector
(which never consults the quality preference) returns a format whose defaulted
bitrate is maximal, and on `[{bitrate:128}, {bitrate:192}, {bitrate:undefined}]`
it returns the format with bitrate 192. -/
theorem C3_selectAudio_max_bitrate :
    (∀ l : List AudioFormat, l ≠ [] →
      ∃ f, selectAudioFormat l = .ok f ∧ f ∈ l ∧
        ∀ g ∈ l, g.bitrate.getD 0 ≤ f.bitrate.getD 0) ∧
    selectAudioFormat [⟨some 128⟩, ⟨some 192⟩, ⟨none⟩] = .ok ⟨some 192⟩ := by
  constructor
  · intro l hl
    cases l with
    | nil => exact absurd rfl hl
    | cons h t =>
      refine ⟨_, selectAudioFormat_cons h t, ?_,
        jsMaxFold_le (fun a => a.bitrate.getD 0) t h⟩
      obtain ⟨l1, l2, heq, -⟩ := jsMaxFold_lastTied (fun a => a.bitrate.getD 0) t h
      rw [heq]
      exact List.mem_append_right _ (List.mem_cons_self _ _)
  · rfl

/-- C3 witness: the universally quantified part of the claim evaluated on the
concrete scenario-B candidate list. -/
theorem C3_selectAudio_max_bitrate_witness :
    ∃ f, selectAudioFormat [⟨some 128⟩, ⟨some 192⟩, ⟨none⟩] = .ok f ∧
      f ∈ [⟨some 128⟩, ⟨some 192⟩, ⟨none⟩] ∧
      ∀ g ∈ [(⟨some 128⟩ : AudioFormat), ⟨some 192⟩, ⟨none⟩],
        g.bitrate.getD 0 ≤ f.bitrate.getD 0 :=
  C3_selectAudio_max_bitrate.1 _ (by decide)

/-- C4 (code evaluation): on an empty filtered candidate set both selectors
fail with the `TypeError` thrown by `Array.prototype.reduce` on an empty
array, not with the `NoSuitableFormat` error; the `if (!format)` guard that
would raise `NoSuitableFormat` is unreachable, since `reduce` only ever
returns one of the (truthy) format objects, so no input at all produces the
`NoSuitableFormat` error. -/
theorem C4_empty_set_throws_reduce_typeError :
    selectVideoFormat [] "highest" = .error .reduceOfEmptyArray ∧
    selectVideoFormat [] "lowest" = .error .reduceOfEmptyArray ∧
    selectAudioFormat [] = .error .reduceOfEmptyArray ∧
    (∀ (l : List Format) (quality m : String),
      selectVideoFormat l quality ≠ .error (.noSuitableFormat m)) ∧
    (∀ (l : List AudioFormat) (m : String),
      selectAudioFormat l ≠ .error (.noSuitableFormat m)) := by
  refine ⟨rfl, rfl, rfl, ?_, ?_⟩
  · intro l quality m hsel
    cases l with
    | nil =>
      rw [selectVideoFormat_nil] at hsel
      injection hsel with h2
      exact SelectionError.noConfusion h2
    | cons h t =>
      rw [selectVideoFormat_cons] at hsel
      by_cases hq : quality == "highest"
      · rw [if_pos hq] at hsel
        exact Except.noConfusion hsel
      · rw [if_neg hq] at hsel
        exact Except.noConfusion hsel
  · intro l m hsel
    cases l with
    | nil =>
      rw [selectAudioFormat_nil] at hsel
      injection hsel with h2
      exact SelectionError.noConfusion h2
    | cons h t =>
      rw [selectAudioFormat_cons] at hsel
      exact Except.noConfusion hsel

/-- C10: whenever a selector succeeds, the returned format is the LAST format
in input order among those achieving the extremal comparison key (maximal
label for video `highest`, minimal label for video `lowest`, maximal defaulted
bitrate for audio): every element of the list is bounded by the result, and
every element strictly after the result is strictly worse, because the strict
comparison keeps the later candidate on ties. -/
theorem C10_select_last_tied :
    (∀ (l : List Format) (f : Format), selectVideoFormat l "highest" = .ok f →
      ∃ l1 l2, l = l1 ++ f :: l2 ∧ (∀ g ∈ l, g.qualityLabel ≤ f.qualityLabel) ∧
        ∀ g ∈ l2, g.qualityLabel < f.qualityLabel) ∧
    (∀ (l : List Format) (f : Format), selectVideoFormat l "lowest" = .ok f →
      ∃ l1 l2, l = l1 ++ f :: l2 ∧ (∀ g ∈ l, f.qualityLabel ≤ g.qualityLabel) ∧
        ∀ g ∈ l2, f.qualityLabel < g.qualityLabel) ∧
    (∀ (l : List AudioFormat) (f : AudioFormat), selectAudioFormat l = .ok f →
      ∃ l1 l2, l = l1 ++ f :: l2 ∧
        (∀ g ∈ l, g.bitrate.getD 0 ≤ f.bitrate.getD 0) ∧
        ∀ g ∈ l2, g.bitrate.getD 0 < f.bitrate.getD 0) := by
  refine ⟨?_, ?_, ?_⟩
  · intro l f hsel
    cases l with
    | nil =>
      rw [selectVideoFormat_nil] at hsel
      exact Except.noConfusion hsel
    | cons h t =>
      rw [selectVideoFormat_highest_cons] at hsel
      injection hsel with hf
      subst hf
      obtain ⟨l1, l2, heq, hb⟩ := jsMaxFold_lastTied Format.qualityLabel t h
      exact ⟨l1, l2, heq, jsMaxFold_le Format.qualityLabel t h, hb⟩
  · intro l f hsel
    cases l with
    | nil =>
      rw [selectVideoFormat_nil] at hsel
      exact Except.noConfusion hsel
    | cons h t =>
      rw [selectVideoFormat_lowest_cons] at hsel
      injection hsel with hf
      subst hf
      obtain ⟨l1, l2, heq, hb⟩ := jsMinFold_lastTied Format.qualityLabel t h
      exact ⟨l1, l2, heq, jsMinFold_le Format.qualityLabel t h, hb⟩
  · intro l f hsel
    cases l with
    | nil =>
      rw [selectAudioFormat_nil] at hsel
      exact Except.noConfusion hsel
    | cons h t =>
      rw [selectAudioFormat_cons] at hsel
      injection hsel with hf
      subst hf
      obtain ⟨l1, l2, heq, hb⟩ := jsMaxFold_lastTied (fun a => a.bitrate.getD 0) t h
      exact ⟨l1, l2, heq, jsMaxFold_le (fun a => a.bitrate.getD 0) t h, hb⟩

/-- C10 witness: on `["360p", "720p", "720p"]` with quality `highest` the
selector succeeds and the decomposition property of the claim holds at the
returned format. -/
theorem C10_select_last_tied_witness :
    ∃ l1 l2,
      [(⟨"360p".toList⟩ : Format), ⟨"720p".toList⟩, ⟨"720p".toList⟩] =
        l1 ++ (⟨"720p".toList⟩ : Format) :: l2 ∧
      (∀ g ∈ [(⟨"360p".toList⟩ : Format), ⟨"720p".toList⟩, ⟨"720p".toList⟩],
        g.qualityLabel ≤ (⟨"720p".toList⟩ : Format).qualityLabel) ∧
      ∀ g ∈ l2, g.qualityLabel < (⟨"720p".toList⟩ : Format).qualityLabel :=
  C10_select_last_tied.1 _ _ rfl

/-! ## Claim C5: library-path progress reporter -/

lemma progressEmitsFrom_cons (lastPercentage : Nat) (e : ProgressEvent)
    (rest : List ProgressEvent) :
    progressEmitsFrom lastPercentage (e :: rest) =
      if progressPct e > lastPercentage then
        progressPct e :: progressEmitsFrom (progressPct e) rest
      else progressEmitsFrom lastPercentage rest := rfl

lemma progressEmitsFrom_pairwise (events : List ProgressEvent) :
    ∀ lastPercentage,
      (∀ x ∈ progressEmitsFrom lastPercentage events, lastPercentage < x) ∧
      List.Pairwise (· < ·) (progressEmitsFrom lastPercentage events) := by
  induction events with
  | nil =>
    intro lastPercentage
    constructor
    · intro x hx
      simp [progressEmitsFrom] at hx
    · exact List.Pairwise.nil
  | cons e rest ih =>
    intro lastPercentage
    rw [progressEmitsFrom_cons]
    by_cases hp : progressPct e > lastPercentage
    · rw [if_pos hp]
      constructor
      · intro x hx
        rcases List.mem_cons.mp hx with rfl | hx'
        · exact hp
        · exact lt_trans hp ((ih (progressPct e)).1 x hx')
      · exact List.Pairwise.cons (ih (progressPct e)).1 (ih (progressPct e)).2
    · rw [if_neg hp]
      exact ih lastPercentage

/-- C5: for every monotonic sequence of progress events fed to the
library-path progress handler, the emitted percentages are strictly
increasing: an update is only emitted when the freshly computed integer
percentage exceeds the last emitted value, so no two emitted updates carry
equal or decreasing percentages.  (The strictness is enforced by the
`percentage > lastPercentage` guard alone, so it holds for the monotonic
inputs of the claim in particular.) -/
theorem C5_progress_strictly_increasing (events : List ProgressEvent)
    (_hmono : MonotonicEvents events) :
    List.Pairwise (· < ·) (progressEmissions events) :=
  (progressEmitsFrom_pairwise events 0).2

/-- C5 witness: a concrete monotonic event stream whose emissions the theorem
shows to be strictly increasing. -/
theorem C5_progress_strictly_increasing_witness :
    MonotonicEvents [⟨10, 100⟩, ⟨10, 100⟩, ⟨50, 100⟩, ⟨99, 100⟩] ∧
    List.Pairwise (· < ·)
      (progressEmissions [⟨10, 100⟩, ⟨10, 100⟩, ⟨50, 100⟩, ⟨99, 100⟩]) := by
  have hmono : MonotonicEvents [⟨10, 100⟩, ⟨10, 100⟩, ⟨50, 100⟩, ⟨99, 100⟩] := by
    simp [MonotonicEvents, List.chain'_cons, List.chain'_singleton]
  exact ⟨hmono, C5_progress_strictly_increasing _ hmono⟩

/-! ## Claim C6: audio strategy choice in the orchestrator -/

/-- C6: for every audio request with a valid URL, the orchestrator probes for
the external tool; it delegates to the external tool exactly when the probe
returns `true`, takes the extraction-library path exactly when the probe
returns `false`, and in the fallback case the full trace shows the warning
surfaced between the probe and the library path. -/
theorem C6_audio_strategy_choice (env : AudioEnv) (hurl : env.urlValid = true) :
    (AudioEvent.probeYtDlp env.hasYtDlp ∈ downloadAudio env) ∧
    ((AudioEvent.runYtDlp ∈ downloadAudio env) ↔ env.hasYtDlp = true) ∧
    ((AudioEvent.runYtdlCore ∈ downloadAudio env) ↔ env.hasYtDlp = false) ∧
    ((AudioEvent.warnFallback ∈ downloadAudio env) ↔ env.hasYtDlp = false) ∧
    (env.hasYtDlp = true →
      downloadAudio env =
        (if !env.dirExists then [AudioEvent.mkdir] else []) ++
          [AudioEvent.probeYtDlp true, AudioEvent.runYtDlp]) ∧
    (env.hasYtDlp = false →
      downloadAudio env =
        (if !env.dirExists then [AudioEvent.mkdir] else []) ++
          [AudioEvent.probeYtDlp false, AudioEvent.warnFallback,
            AudioEvent.runYtdlCore]) := by
  obtain ⟨u, d, y⟩ := env
  cases u with
  | false => exact Bool.noConfusion hurl
  | true => cases d <;> cases y <;> decide

/-- C6 witness: the strategy facts evaluated in the concrete environment with
a valid URL, an existing output directory and no `yt-dlp` installed. -/
theorem C6_audio_strategy_choice_witness :
    (AudioEvent.probeYtDlp false ∈ downloadAudio ⟨true, true, false⟩) ∧
    ((AudioEvent.runYtDlp ∈ downloadAudio ⟨true, true, false⟩) ↔ false = true) ∧
    ((AudioEvent.runYtdlCore ∈ downloadAudio ⟨true, true, false⟩) ↔ false = false) ∧
    ((AudioEvent.warnFallback ∈ downloadAudio ⟨true, true, false⟩) ↔ false = false) ∧
    (false = true →
      downloadAudio ⟨true, true, false⟩ =
        (if !true then [AudioEvent.mkdir] else []) ++
          [AudioEvent.probeYtDlp true, AudioEvent.runYtDlp]) ∧
    (false = false →
      downloadAudio ⟨true, true, false⟩ =
        (if !true then [AudioEvent.mkdir] else []) ++
          [AudioEvent.probeYtDlp false, AudioEvent.warnFallback,
            AudioEvent.runYtdlCore]) :=
  C6_audio_strategy_choice ⟨true, true, false⟩ rfl

/-! ## Claim C7: the probe never fails its caller -/

/-- C7: the probe is a total function into `Bool` (the promise executor only
ever calls `resolve`, never `reject`, so no outcome of the version-command
invocation throws or rejects); it returns `true` exactly when the invocation
reports no error, i.e. exactly on success, and `false` in every failure
case. -/
theorem C7_probe_total_boolean (outcome : ExecOutcome) :
    (checkYtDlpInstalled outcome = true ↔ execFileFailed outcome = false) ∧
    (checkYtDlpInstalled outcome = true ↔ outcome = .success) ∧
    (checkYtDlpInstalled outcome = false ↔ execFileFailed outcome = true) := by
  cases outcome <;> simp [checkYtDlpInstalled, execFileFailed]

/-! ## Claim C8: classification of external-tool failures -/

/-- C8: a failed `yt-dlp` invocation is classified as the
missing-encoder-dependency error (carrying the per-platform install hints)
exactly when the diagnostic text contains the string `ffmpeg`, and otherwise
as an external-tool error wrapping the raw diagnostic text. -/
theorem C8_ytDlp_failure_classification (stderr : Option String) (errMessage : String) :
    (classifyYtDlpFailure stderr errMessage =
        .missingEncoderDependency ffmpegInstallHints ↔
      strIncludes (ytDlpDiagnostic stderr errMessage) "ffmpeg" = true) ∧
    (classifyYtDlpFailure stderr errMessage =
        .externalToolError ("yt-dlp error: " ++ ytDlpDiagnostic stderr errMessage) ↔
      strIncludes (ytDlpDiagnostic stderr errMessage) "ffmpeg" = false) := by
  unfold classifyYtDlpFailure
  by_cases hf : strIncludes (ytDlpDiagnostic stderr errMessage) "ffmpeg"
  · rw [if_pos hf]
    simp [hf]
  · rw [if_neg hf]
    simp [hf]

/-! ## Claim C9: external-tool stderr progress parsing -/

/-- C9 counterexample: the `yt-dlp` stderr handler keeps no record of the last
emitted value, so two identical `50%` chunks produce two equal emitted
updates, violating the never-equal-or-decreasing contract of the library-path
progress reporter. -/
theorem C9_ytDlp_progress_cex :
    ytDlpEmissions ["50%".toList, "50%".toList] = [50, 50] ∧
    ¬ List.Pairwise (· < ·) (ytDlpEmissions ["50%".toList, "50%".toList]) := by
  constructor
  · rfl
  · rw [show ytDlpEmissions ["50%".toList, "50%".toList] = [50, 50] from rfl]
    decide

/-- C9 amended: the handler emits an update for every stderr chunk in which
the percentage regex matches, unconditionally on the history of previous
emissions — it performs no comparison with the last emitted value, so equal or
decreasing percentages are re-emitted. -/
theorem C9_ytDlp_progress_unconditional (lines : List (List Char))
    (line : List Char) (p : Nat) (hline : ytDlpLineUpdate line = some p) :
    ytDlpEmissions (lines ++ [line]) = ytDlpEmissions lines ++ [p] := by
  rw [ytDlpEmissions, ytDlpEmissions, List.filterMap_append]
  rw [List.filterMap_cons, hline, List.filterMap_nil]

/-- C9 witness: appending a `50%` chunk after a `50%` chunk emits a second,
equal update. -/
theorem C9_ytDlp_progress_unconditional_witness :
    ytDlpEmissions (["50%".toList] ++ ["50%".toList]) =
      ytDlpEmissions ["50%".toList] ++ [50] :=
  C9_ytDlp_progress_unconditional ["50%".toList] "50%".toList 50 (by decide)
